import Mathlib

set_option maxHeartbeats 1000000

/-!
Shallow embedding of the CatBoost oblivious-tree model core
(catboost/libs/model/model.h) and proofs about it.

Machine integers (C++ int, size_t) are embedded as unbounded Int / Nat;
the one place where a C++ integral conversion matters (static_cast<size_t>)
is made explicit through sizeCast.  C++ double leaf values are embedded as
rationals.  TVector becomes List, TMaybe becomes Option, THashMap becomes an
association list, and functions that throw (Y_ENSURE) return Except.
-/

/-- Conversion performed by a C++ static_cast from a signed integer value to
size_t: reduce modulo 2 to the 64 and read the result as a natural number. -/
def sizeCast (i : Int) : Nat := (i % (2 : Int) ^ 64).toNat

/-- Modelled from the spec: the CTR descriptor type TModelCtr lives in
ctr_provider.h / split.h, which are not part of src/.  The spec only needs a
carrier identifying the learned statistic (its base: the categorical feature
combination plus ctr type, and prior parameters) with decidable equality. -/
structure TModelCtr where
  Base : Int
  CtrType : Int
  PriorNum : Int
deriving DecidableEq

/-- Modelled from the spec: TModelSplit (split.h, not part of src/) is the
closed tagged-variant set of binary conditions described in model.h lines
28-31: a float condition (float feature value greater than a border), a
one-hot condition (hashed categorical value equal to a stored value) and a
CTR condition (computed ctr greater than a border). -/
inductive TModelSplit where
  | floatSplit (FeatureIndex : Int) (Border : ℚ)
  | oneHotSplit (CatFeatureIndex : Int) (Value : Int)
  | ctrSplit (Ctr : TModelCtr) (Border : ℚ)
deriving DecidableEq

/-- Modelled from the spec: float feature descriptor (features.h, not part of
src/): the source feature index and the split borders used by the ensemble. -/
structure TFloatFeature where
  FeatureIndex : Int
  Borders : List ℚ
deriving DecidableEq

/-- Modelled from the spec: categorical feature descriptor (features.h, not
part of src/): the source categorical feature index. -/
structure TCatFeature where
  FeatureIndex : Int
deriving DecidableEq

/-- Modelled from the spec: one-hot feature descriptor (features.h, not part
of src/): a categorical feature index and the hashed values tested. -/
structure TOneHotFeature where
  CatFeatureIndex : Int
  Values : List Int
deriving DecidableEq

/-- Modelled from the spec: CTR feature descriptor (features.h, not part of
src/): the ctr and its borders. -/
structure TCtrFeature where
  Ctr : TModelCtr
  Borders : List ℚ
deriving DecidableEq

/-- Embedding of TObliviousTrees::TMetaData (model.h lines 47-68). -/
structure TMetaData where
  UsedModelCtrs : List TModelCtr := []
  BinFeatures : List TModelSplit := []
  RepackedBins : List Nat := []
  EffectiveBinFeaturesBucketCount : Nat := 0
deriving DecidableEq

/-- Embedding of struct TObliviousTrees (model.h lines 42-260): the flat tree
store, the feature descriptor lists and the mutable cached metadata. -/
structure TObliviousTrees where
  ApproxDimension : Int := 1
  TreeSplits : List Int := []
  TreeSizes : List Int := []
  TreeStartOffsets : List Int := []
  LeafValues : List (List ℚ) := []
  CatFeatures : List TCatFeature := []
  FloatFeatures : List TFloatFeature := []
  OneHotFeatures : List TOneHotFeature := []
  CtrFeatures : List TCtrFeature := []
  MetaData : Option TMetaData := none
deriving DecidableEq

/-- Embedding of the Y_ASSERT condition at the entry of
TObliviousTrees::AddBinTree (model.h line 149): the code checks
TreeSplits.size() == TreeSizes.size() and TreeSizes.size() ==
TreeStartOffsets.size(). -/
def TObliviousTrees.addBinTreeAssert (t : TObliviousTrees) : Bool :=
  decide (t.TreeSplits.length = t.TreeSizes.length) &&
  decide (t.TreeSizes.length = t.TreeStartOffsets.length)

/-- Embedding of TObliviousTrees::AddBinTree (model.h lines 148-157), the
operational effect after the assertion: append the splits, push the new tree
size, and push a start offset (0 when the offset vector was empty, otherwise
the previous back plus binSplits.ysize(), exactly as the code computes it). -/
def TObliviousTrees.AddBinTree (t : TObliviousTrees) (binSplits : List Int) : TObliviousTrees :=
  { t with
    TreeSplits := t.TreeSplits ++ binSplits
    TreeSizes := t.TreeSizes ++ [(binSplits.length : Int)]
    TreeStartOffsets :=
      if t.TreeStartOffsets.isEmpty then
        t.TreeStartOffsets ++ [0]
      else
        t.TreeStartOffsets ++ [t.TreeStartOffsets.getLastD 0 + (binSplits.length : Int)] }

/-- Embedding of TObliviousTrees::operator== (model.h lines 159-178): the
std::tie comparison over the nine structural fields, MetaData excluded. -/
def TObliviousTrees.equalsOp (a b : TObliviousTrees) : Bool :=
  decide (a.ApproxDimension = b.ApproxDimension ∧
    a.TreeSplits = b.TreeSplits ∧
    a.TreeSizes = b.TreeSizes ∧
    a.TreeStartOffsets = b.TreeStartOffsets ∧
    a.LeafValues = b.LeafValues ∧
    a.CatFeatures = b.CatFeatures ∧
    a.FloatFeatures = b.FloatFeatures ∧
    a.OneHotFeatures = b.OneHotFeatures ∧
    a.CtrFeatures = b.CtrFeatures)

/-- Embedding of TObliviousTrees::GetTreeCount (model.h lines 182-184). -/
def TObliviousTrees.GetTreeCount (t : TObliviousTrees) : Nat := t.TreeSizes.length

/-- Embedding of TObliviousTrees::GetUsedModelCtrs (model.h lines 200-203);
the Y_ENSURE throw is modelled as an Except error. -/
def TObliviousTrees.GetUsedModelCtrs (t : TObliviousTrees) : Except String (List TModelCtr) :=
  match t.MetaData with
  | some md => Except.ok md.UsedModelCtrs
  | none => Except.error "metadata should be initialized"

/-- Embedding of TObliviousTrees::GetBinFeatures (model.h lines 208-211). -/
def TObliviousTrees.GetBinFeatures (t : TObliviousTrees) : Except String (List TModelSplit) :=
  match t.MetaData with
  | some md => Except.ok md.BinFeatures
  | none => Except.error "metadata should be initialized"

/-- Embedding of TObliviousTrees::GetRepackedBins (model.h lines 213-216). -/
def TObliviousTrees.GetRepackedBins (t : TObliviousTrees) : Except String (List Nat) :=
  match t.MetaData with
  | some md => Except.ok md.RepackedBins
  | none => Except.error "metadata should be initialized"

/-- Embedding of TObliviousTrees::GetEffectiveBinaryFeaturesBucketsCount
(model.h lines 250-253). -/
def TObliviousTrees.GetEffectiveBinaryFeaturesBucketsCount (t : TObliviousTrees) :
    Except String Nat :=
  match t.MetaData with
  | some md => Except.ok md.EffectiveBinFeaturesBucketCount
  | none => Except.error "metadata should be initialized"

/-- Embedding of TObliviousTrees::GetNumFloatFeatures (model.h lines 230-236):
0 for an empty descriptor list, otherwise static_cast to size_t of the LAST
descriptor's FeatureIndex plus one. -/
def TObliviousTrees.GetNumFloatFeatures (t : TObliviousTrees) : Nat :=
  match t.FloatFeatures.getLast? with
  | none => 0
  | some f => sizeCast (f.FeatureIndex + 1)

/-- Embedding of TObliviousTrees::GetNumCatFeatures (model.h lines 238-244). -/
def TObliviousTrees.GetNumCatFeatures (t : TObliviousTrees) : Nat :=
  match t.CatFeatures.getLast? with
  | none => 0
  | some f => sizeCast (f.FeatureIndex + 1)

/-- Embedding of TObliviousTrees::GetFlatFeatureVectorExpectedSize
(model.h lines 255-257). -/
def TObliviousTrees.GetFlatFeatureVectorExpectedSize (t : TObliviousTrees) : Nat :=
  t.GetNumFloatFeatures + t.GetNumCatFeatures

/-- Modelled from the spec: the external target-statistic provider boundary
ICtrProvider (static_ctr_provider.h, not part of src/), consumed through a
narrow interface: compute a ctr value for a row of hashed categorical values,
and answer whether all needed ctrs are available. -/
structure ICtrProvider where
  CalcCtr : TModelCtr → List Int → ℚ
  HasNeededCtrs : List TModelCtr → Bool

/-- Embedding of struct TFullModel (model.h lines 267-494): the tree store,
the key-value model information map (THashMap modelled as an association
list) and the nullable shared-ownership ctr provider handle. -/
structure TFullModel where
  ObliviousTrees : TObliviousTrees := {}
  ModelInfo : List (String × String) := []
  CtrProvider : Option ICtrProvider := none

/-- Embedding of TFullModel::operator== (model.h lines 307-310): the std::tie
comparison over ObliviousTrees and ModelInfo only. -/
def TFullModel.equalsOp (a b : TFullModel) : Bool :=
  a.ObliviousTrees.equalsOp b.ObliviousTrees && decide (a.ModelInfo = b.ModelInfo)

/-- Embedding of TFullModel::GetTreeCount (model.h lines 288-290). -/
def TFullModel.GetTreeCount (m : TFullModel) : Nat := m.ObliviousTrees.TreeSizes.length

/-- Embedding of TFullModel::HasCategoricalFeatures (model.h lines 284-286). -/
def TFullModel.HasCategoricalFeatures (m : TFullModel) : Bool :=
  !m.ObliviousTrees.CatFeatures.isEmpty

/-- Tree Store invariant exactly as claim C1 states it: the Sizes and
StartOffsets sequences have equal length, StartOffsets starts at 0, each
later offset is the previous offset plus the previous size, and Splits has
length equal to the sum of the sizes. -/
def treeStoreClaimInvariant (t : TObliviousTrees) : Prop :=
  t.TreeSizes.length = t.TreeStartOffsets.length ∧
  (t.TreeStartOffsets ≠ [] → t.TreeStartOffsets.getD 0 0 = 0) ∧
  (∀ i < t.TreeStartOffsets.length - 1,
    t.TreeStartOffsets.getD (i + 1) 0 = t.TreeStartOffsets.getD i 0 + t.TreeSizes.getD i 0) ∧
  (t.TreeSplits.length : Int) = t.TreeSizes.sum

/-- Specification-side reading of the feature-count accessors, used for the
refinement comparison in claim C6: the highest referenced feature index plus
one, and 0 for an empty index list. -/
def highestIndexPlusOne (idxs : List Int) : Int :=
  idxs.foldl (fun acc i => max acc (i + 1)) 0

/-- Concrete store with float feature descriptors listed out of index order,
exercising claim C6. -/
def c6Store : TObliviousTrees :=
  { FloatFeatures := [{ FeatureIndex := 5, Borders := [] }, { FeatureIndex := 2, Borders := [] }] }

/-- C1: the claim states that after every sequence of AddBinTree calls from
the empty store, StartOffsets satisfies the recurrence StartOffsets t =
StartOffsets (t-1) + Sizes (t-1).  The code instead adds the NEW tree's size
when pushing the next offset (model.h line 155), so appending a tree of
size 1 and then a tree of size 2 yields StartOffsets = [0, 2] where the
invariant demands [0, 1]; the invariant is refuted at this concrete store. -/
theorem c1_treeStore_invariant_fails_on_addBinTree :
    ((({} : TObliviousTrees).AddBinTree [1]).AddBinTree [2, 3]).TreeStartOffsets = [0, 2] ∧
    ¬ treeStoreClaimInvariant ((({} : TObliviousTrees).AddBinTree [1]).AddBinTree [2, 3]) := by
  constructor
  · rfl
  · intro h
    have := h.2.2.1 0 (by decide)
    simp [TObliviousTrees.AddBinTree] at this

/-- C8: the claim states AddBinTree's assertion trips exactly when the
length of Sizes differs from the length of StartOffsets.  The code's
Y_ASSERT (model.h line 149) additionally demands TreeSplits.size() ==
TreeSizes.size(), so on the store holding one tree of depth 2 (where Sizes
and StartOffsets lengths agree) the assertion condition is already false. -/
theorem c8_addBinTree_assert_fires_despite_invariant :
    (({} : TObliviousTrees).AddBinTree [5, 7]).TreeSizes.length =
      (({} : TObliviousTrees).AddBinTree [5, 7]).TreeStartOffsets.length ∧
    (({} : TObliviousTrees).AddBinTree [5, 7]).addBinTreeAssert = false := by
  constructor
  · rfl
  · rfl

/-- C7: every metadata accessor returns the not-initialized error exactly
when the metadata cache is absent, and returns the cached value without
error once the cache is present. -/
theorem c7_metadata_accessors_fail_fast (t : TObliviousTrees) :
    (t.MetaData = none →
      t.GetUsedModelCtrs = Except.error "metadata should be initialized" ∧
      t.GetBinFeatures = Except.error "metadata should be initialized" ∧
      t.GetRepackedBins = Except.error "metadata should be initialized" ∧
      t.GetEffectiveBinaryFeaturesBucketsCount =
        Except.error "metadata should be initialized") ∧
    (∀ md : TMetaData, t.MetaData = some md →
      t.GetUsedModelCtrs = Except.ok md.UsedModelCtrs ∧
      t.GetBinFeatures = Except.ok md.BinFeatures ∧
      t.GetRepackedBins = Except.ok md.RepackedBins ∧
      t.GetEffectiveBinaryFeaturesBucketsCount =
        Except.ok md.EffectiveBinFeaturesBucketCount) := by
  constructor
  · intro h
    refine ⟨?_, ?_, ?_, ?_⟩ <;>
      simp [TObliviousTrees.GetUsedModelCtrs, TObliviousTrees.GetBinFeatures,
        TObliviousTrees.GetRepackedBins,
        TObliviousTrees.GetEffectiveBinaryFeaturesBucketsCount, h]
  · intro md h
    refine ⟨?_, ?_, ?_, ?_⟩ <;>
      simp [TObliviousTrees.GetUsedModelCtrs, TObliviousTrees.GetBinFeatures,
        TObliviousTrees.GetRepackedBins,
        TObliviousTrees.GetEffectiveBinaryFeaturesBucketsCount, h]

/-- Witness for C7: both branches exercised at concrete stores. -/
theorem c7_metadata_accessors_fail_fast_witness :
    ({} : TObliviousTrees).GetUsedModelCtrs =
      Except.error "metadata should be initialized" ∧
    ({ MetaData := some { EffectiveBinFeaturesBucketCount := 4 } } :
      TObliviousTrees).GetEffectiveBinaryFeaturesBucketsCount = Except.ok 4 :=
  ⟨((c7_metadata_accessors_fail_fast {}).1 rfl).1,
   (((c7_metadata_accessors_fail_fast
      { MetaData := some { EffectiveBinFeaturesBucketCount := 4 } }).2
      { EffectiveBinFeaturesBucketCount := 4 } rfl).2.2.2)⟩

/-- C9: TObliviousTrees equality holds exactly when the nine structural
fields coincide, and two stores differing only in the cached metadata
compare equal. -/
theorem c9_obliviousTrees_equality_structural :
    (∀ a b : TObliviousTrees, a.equalsOp b = true ↔
      (a.ApproxDimension = b.ApproxDimension ∧
       a.TreeSplits = b.TreeSplits ∧
       a.TreeSizes = b.TreeSizes ∧
       a.TreeStartOffsets = b.TreeStartOffsets ∧
       a.LeafValues = b.LeafValues ∧
       a.CatFeatures = b.CatFeatures ∧
       a.FloatFeatures = b.FloatFeatures ∧
       a.OneHotFeatures = b.OneHotFeatures ∧
       a.CtrFeatures = b.CtrFeatures)) ∧
    (∀ (a : TObliviousTrees) (md₁ md₂ : Option TMetaData),
      TObliviousTrees.equalsOp { a with MetaData := md₁ } { a with MetaData := md₂ } = true) := by
  constructor
  · intro a b
    simp [TObliviousTrees.equalsOp]
  · intro a md₁ md₂
    simp [TObliviousTrees.equalsOp]

/-- C10: TFullModel equality compares only the oblivious trees and the
ModelInfo map; models differing only in the attached ctr provider (one
attached and one absent, or two different providers) compare equal. -/
theorem c10_fullModel_equality_ignores_provider :
    (∀ a b : TFullModel, a.equalsOp b = true ↔
      (a.ObliviousTrees.equalsOp b.ObliviousTrees = true ∧ a.ModelInfo = b.ModelInfo)) ∧
    (∀ (m : TFullModel) (p : ICtrProvider),
      TFullModel.equalsOp { m with CtrProvider := some p } { m with CtrProvider := none } = true) ∧
    (∀ (m : TFullModel) (p₁ p₂ : ICtrProvider),
      TFullModel.equalsOp { m with CtrProvider := some p₁ }
        { m with CtrProvider := some p₂ } = true) := by
  refine ⟨?_, ?_, ?_⟩
  · intro a b
    simp [TFullModel.equalsOp]
  · intro m p
    simp [TFullModel.equalsOp, TObliviousTrees.equalsOp]
  · intro m p₁ p₂
    simp [TFullModel.equalsOp, TObliviousTrees.equalsOp]

/-- Helper for C6: folding the running maximum of index-plus-one over a
nondecreasing list whose last element is x yields max a (x + 1). -/
theorem foldl_max_sorted_concat :
    ∀ (l : List Int) (x : Int), List.Sorted (· ≤ ·) (l ++ [x]) →
      ∀ a : Int, (l ++ [x]).foldl (fun acc i => max acc (i + 1)) a = max a (x + 1) := by
  intro l
  induction l with
  | nil =>
    intro x _ a
    simp
  | cons h l ih =>
    intro x hs a
    have hhx : h ≤ x := by
      have := (List.sorted_cons.mp hs).1
      exact this x (by simp)
    have htail : List.Sorted (· ≤ ·) (l ++ [x]) := (List.sorted_cons.mp hs).2
    have step : ((h :: l) ++ [x]).foldl (fun acc i => max acc (i + 1)) a =
        (l ++ [x]).foldl (fun acc i => max acc (i + 1)) (max a (h + 1)) := by
      simp
    rw [step, ih x htail (max a (h + 1)), max_assoc,
      max_eq_right (by omega : h + 1 ≤ x + 1)]

/-- Helper for C6: on a nondecreasing, in-range index list whose last element
is f, the code's static_cast of f plus one agrees with the specification-side
highest index plus one. -/
theorem sizeCast_last_eq_highest (idxs : List Int) (f : Int)
    (hs : List.Sorted (· ≤ ·) idxs)
    (hb : ∀ i ∈ idxs, 0 ≤ i ∧ i < 2 ^ 31)
    (hf : idxs.getLast? = some f) :
    sizeCast (f + 1) = (highestIndexPlusOne idxs).toNat := by
  obtain ⟨ys, rfl⟩ := List.getLast?_eq_some_iff.mp hf
  have hfb : 0 ≤ f ∧ f < 2 ^ 31 := hb f (by simp)
  have hfold := foldl_max_sorted_concat ys f hs 0
  have hmax : max (0 : Int) (f + 1) = f + 1 := max_eq_right (by omega)
  have hmod : (f + 1) % (2 : Int) ^ 64 = f + 1 :=
    Int.emod_eq_of_lt (by omega) (by omega)
  unfold highestIndexPlusOne sizeCast
  rw [hfold, hmax, hmod]

/-- C6 counterexample: with float descriptors listed out of index order
(indexes 5 then 2) the code returns the last descriptor's index plus one
(namely 3), not the highest referenced index plus one (namely 6). -/
theorem c6_numFeatures_not_highest_counterexample :
    c6Store.GetNumFloatFeatures = 3 ∧
    (highestIndexPlusOne (c6Store.FloatFeatures.map TFloatFeature.FeatureIndex)).toNat = 6 ∧
    c6Store.GetNumFloatFeatures ≠
      (highestIndexPlusOne (c6Store.FloatFeatures.map TFloatFeature.FeatureIndex)).toNat := by
  refine ⟨?_, ?_, ?_⟩ <;> decide

/-- C6 amended: GetNumFloatFeatures and GetNumCatFeatures return the LAST
descriptor's feature index plus one, which equals the highest referenced
feature index plus one whenever the descriptor list is ordered by
nondecreasing feature index (with indexes in the C++ int range); an empty
descriptor list yields 0 in each case. -/
theorem c6_numFeatures_amended (t : TObliviousTrees) :
    (List.Sorted (· ≤ ·) (t.FloatFeatures.map TFloatFeature.FeatureIndex) →
      (∀ i ∈ t.FloatFeatures.map TFloatFeature.FeatureIndex, 0 ≤ i ∧ i < 2 ^ 31) →
      t.GetNumFloatFeatures =
        (highestIndexPlusOne (t.FloatFeatures.map TFloatFeature.FeatureIndex)).toNat) ∧
    (List.Sorted (· ≤ ·) (t.CatFeatures.map TCatFeature.FeatureIndex) →
      (∀ i ∈ t.CatFeatures.map TCatFeature.FeatureIndex, 0 ≤ i ∧ i < 2 ^ 31) →
      t.GetNumCatFeatures =
        (highestIndexPlusOne (t.CatFeatures.map TCatFeature.FeatureIndex)).toNat) ∧
    (t.FloatFeatures = [] → t.GetNumFloatFeatures = 0) ∧
    (t.CatFeatures = [] → t.GetNumCatFeatures = 0) := by
  refine ⟨?_, ?_, ?_, ?_⟩
  · intro hs hb
    unfold TObliviousTrees.GetNumFloatFeatures
    cases hl : t.FloatFeatures.getLast? with
    | none =>
      rw [List.getLast?_eq_none_iff.mp hl]
      rfl
    | some f =>
      have hm : (t.FloatFeatures.map TFloatFeature.FeatureIndex).getLast? =
          some f.FeatureIndex := by
        rw [List.getLast?_map, hl]
        rfl
      exact sizeCast_last_eq_highest _ _ hs hb hm
  · intro hs hb
    unfold TObliviousTrees.GetNumCatFeatures
    cases hl : t.CatFeatures.getLast? with
    | none =>
      rw [List.getLast?_eq_none_iff.mp hl]
      rfl
    | some f =>
      have hm : (t.CatFeatures.map TCatFeature.FeatureIndex).getLast? =
          some f.FeatureIndex := by
        rw [List.getLast?_map, hl]
        rfl
      exact sizeCast_last_eq_highest _ _ hs hb hm
  · intro h
    simp [TObliviousTrees.GetNumFloatFeatures, h]
  · intro h
    simp [TObliviousTrees.GetNumCatFeatures, h]

/-- Witness for C6's amended theorem at a concrete sorted store. -/
theorem c6_numFeatures_amended_witness :
    ({ FloatFeatures := [{ FeatureIndex := 0, Borders := [] }, { FeatureIndex := 3, Borders := [] }],
       CatFeatures := [{ FeatureIndex := 1 }] } : TObliviousTrees).GetNumFloatFeatures =
      (highestIndexPlusOne
        (({ FloatFeatures := [{ FeatureIndex := 0, Borders := [] }, { FeatureIndex := 3, Borders := [] }],
            CatFeatures := [{ FeatureIndex := 1 }] } :
          TObliviousTrees).FloatFeatures.map TFloatFeature.FeatureIndex)).toNat ∧
    ({ FloatFeatures := [{ FeatureIndex := 0, Borders := [] }, { FeatureIndex := 3, Borders := [] }],
       CatFeatures := [{ FeatureIndex := 1 }] } : TObliviousTrees).GetNumCatFeatures =
      (highestIndexPlusOne
        (({ FloatFeatures := [{ FeatureIndex := 0, Borders := [] }, { FeatureIndex := 3, Borders := [] }],
            CatFeatures := [{ FeatureIndex := 1 }] } :
          TObliviousTrees).CatFeatures.map TCatFeature.FeatureIndex)).toNat :=
  ⟨(c6_numFeatures_amended _).1 (by decide) (by decide),
   (c6_numFeatures_amended _).2.1 (by decide) (by decide)⟩

/-- Modelled from the spec: the canonical binary feature sequence (model.h
line 34: FloatFeatures, OneHotFeatures and CtrFeatures form the binary
condition sequence, in that fixed kind order); tree split references index
into this sequence. -/
def TObliviousTrees.binFeatureList (t : TObliviousTrees) : List TModelSplit :=
  (t.FloatFeatures.flatMap fun f =>
    f.Borders.map fun b => TModelSplit.floatSplit f.FeatureIndex b) ++
  (t.OneHotFeatures.flatMap fun o =>
    o.Values.map fun v => TModelSplit.oneHotSplit o.CatFeatureIndex v) ++
  (t.CtrFeatures.flatMap fun c =>
    c.Borders.map fun b => TModelSplit.ctrSplit c.Ctr b)

/-- Modelled from the spec: evaluation of one binary condition (model.h lines
28-31): float feature value greater than the border, hashed categorical value
equal to the stored value, and computed ctr (supplied by the external
provider) greater than the border.  A ctr condition with no attached provider
is modelled as false; the spec makes that configuration detectable beforehand
through HasValidCtrProvider rather than giving it meaning. -/
def evalSplit (prov : Option ICtrProvider) (floatF : List ℚ) (catF : List Int) :
    TModelSplit → Bool
  | TModelSplit.floatSplit idx border => decide (border < floatF.getD (sizeCast idx) 0)
  | TModelSplit.oneHotSplit idx v => decide (catF.getD (sizeCast idx) 0 = v)
  | TModelSplit.ctrSplit ctr border =>
    match prov with
    | some p => decide (border < p.CalcCtr ctr catF)
    | none => false

/-- Splits of one tree of the store: TreeSizes tree entries of TreeSplits
starting at TreeStartOffsets tree (model.h docstring lines 35-39). -/
def TObliviousTrees.treeSplitRefs (t : TObliviousTrees) (tree : Nat) : List Int :=
  (t.TreeSplits.drop (t.TreeStartOffsets.getD tree 0).toNat).take
    (t.TreeSizes.getD tree 0).toNat

/-- ApproxDimension as the size_t value the evaluation engine indexes with. -/
def TFullModel.dimNat (m : TFullModel) : Nat := sizeCast m.ObliviousTrees.ApproxDimension

/-- Modelled from the spec: leaf resolution for one row and one tree: the
ordered split-test outcomes of the tree form the leaf index, the most
recently evaluated split occupying the low bit. -/
def TFullModel.leafIndex (m : TFullModel) (floatF : List ℚ) (catF : List Int)
    (tree : Nat) : Nat :=
  (m.ObliviousTrees.treeSplitRefs tree).foldl
    (fun acc ref =>
      2 * acc +
        (if evalSplit m.CtrProvider floatF catF
            (m.ObliviousTrees.binFeatureList.getD (sizeCast ref)
              (TModelSplit.floatSplit 0 0)) then 1 else 0))
    0

/-- Modelled from the spec: the contribution of one tree to one output
dimension for one row: LeafValues tree at position
leafId * ApproxDimension + dimension (model.h line 82). -/
def TFullModel.treeLeafValue (m : TFullModel) (floatF : List ℚ) (catF : List Int)
    (tree d : Nat) : ℚ :=
  (m.ObliviousTrees.LeafValues.getD tree []).getD
    (m.leafIndex floatF catF tree * m.dimNat + d) 0

/-- Modelled from the spec: per-row evaluation over the tree range
[treeStart, treeEnd): for each output dimension, the sum of the leaf values
selected by the row in every tree of the range. -/
def TFullModel.calcRow (m : TFullModel) (floatF : List ℚ) (catF : List Int)
    (treeStart treeEnd : Nat) : List ℚ :=
  (List.range m.dimNat).map fun d =>
    ((List.range' treeStart (treeEnd - treeStart)).map fun tr =>
      m.treeLeafValue floatF catF tr d).sum

/-- Modelled from the spec: TFullModel::Calc (model.h lines 416-420), whose
body is not part of src/: the output buffer is overwritten with one block of
ApproxDimension values per row, each value the sum over the trees of the
range of the leaf value the row selects. -/
def TFullModel.Calc (m : TFullModel) (floatFeatures : List (List ℚ))
    (catFeatures : List (List Int)) (treeStart treeEnd : Nat) : List ℚ :=
  (floatFeatures.zip catFeatures).flatMap fun rc =>
    m.calcRow rc.1 rc.2 treeStart treeEnd

/-- Helper: zipWith of two maps over one list is the map of the pointwise
combination. -/
theorem zipWith_map_same {α β γ : Type _} (f : β → β → γ) (g h : α → β) (l : List α) :
    List.zipWith f (l.map g) (l.map h) = l.map fun x => f (g x) (h x) := by
  rw [List.zipWith_map, List.zipWith_same]

/-- Helper: each per-row result has exactly ApproxDimension entries. -/
theorem calcRow_length (m : TFullModel) (f : List ℚ) (c : List Int) (a b : Nat) :
    (m.calcRow f c a b).length = m.dimNat := by
  simp [TFullModel.calcRow]

/-- Helper: per-row evaluation splits additively at any middle tree index. -/
theorem calcRow_split (m : TFullModel) (f : List ℚ) (c : List Int)
    (a b e : Nat) (hab : a ≤ b) (hbe : b ≤ e) :
    m.calcRow f c a e =
      List.zipWith (· + ·) (m.calcRow f c a b) (m.calcRow f c b e) := by
  unfold TFullModel.calcRow
  rw [zipWith_map_same]
  apply List.map_congr_left
  intro d _
  have hr : List.range' a (e - a) = List.range' a (b - a) ++ List.range' b (e - b) := by
    have h1 := List.range'_append_1 a (b - a) (e - b)
    rw [show a + (b - a) = b by omega, show e - b + (b - a) = e - a by omega] at h1
    exact h1.symm
  rw [hr, List.map_append, List.sum_append]

/-- Helper: full evaluation splits additively at any middle tree index. -/
theorem calc_split (m : TFullModel) (ff : List (List ℚ)) (cf : List (List Int))
    (a b e : Nat) (hab : a ≤ b) (hbe : b ≤ e) :
    m.Calc ff cf a e =
      List.zipWith (· + ·) (m.Calc ff cf a b) (m.Calc ff cf b e) := by
  unfold TFullModel.Calc
  induction ff.zip cf with
  | nil => simp
  | cons rc rest ih =>
    simp only [List.flatMap_cons]
    rw [List.zipWith_append _ _ _ _ _ (by rw [calcRow_length, calcRow_length]), ih,
      calcRow_split m rc.1 rc.2 a b e hab hbe]

/-- Helper: evaluation over an empty tree range yields the zero output
buffer, one zero block of ApproxDimension entries per row. -/
theorem calc_empty_range (m : TFullModel) (ff : List (List ℚ)) (cf : List (List Int))
    (a : Nat) :
    m.Calc ff cf a a = List.replicate ((min ff.length cf.length) * m.dimNat) 0 := by
  unfold TFullModel.Calc
  rw [← List.length_zip]
  induction ff.zip cf with
  | nil => simp
  | cons rc rest ih =>
    simp only [List.flatMap_cons, List.length_cons]
    rw [ih, show (rest.length + 1) * m.dimNat = m.dimNat + rest.length * m.dimNat by ring,
      List.replicate_add]
    congr 1
    unfold TFullModel.calcRow
    simp [List.map_const]

/-- Helper: evaluation over the prefix range [0, n) equals the elementwise
fold of the single-tree evaluations of trees 0 to n-1. -/
theorem calc_prefix_foldl (m : TFullModel) (ff : List (List ℚ)) (cf : List (List Int)) :
    ∀ n : Nat,
      m.Calc ff cf 0 n =
        ((List.range n).map fun tr => m.Calc ff cf tr (tr + 1)).foldl
          (List.zipWith (· + ·))
          (List.replicate ((min ff.length cf.length) * m.dimNat) 0) := by
  intro n
  induction n with
  | zero =>
    rw [calc_empty_range m ff cf 0]
    rfl
  | succ n ih =>
    rw [List.range_succ, List.map_append, List.foldl_append, ← ih]
    simp only [List.map_cons, List.map_nil, List.foldl_cons, List.foldl_nil]
    exact calc_split m ff cf 0 n (n + 1) (by omega) (by omega)

/-- C2: for a model with N trees and feature matrices meeting the length
preconditions, evaluation over the full range [0, N) equals the elementwise
sum of the single-tree evaluations over the ranges [t, t+1). -/
theorem c2_calc_additive (m : TFullModel) (ff : List (List ℚ)) (cf : List (List Int))
    (hrows : ff.length = cf.length)
    (hf : ∀ row ∈ ff, m.ObliviousTrees.GetNumFloatFeatures ≤ row.length)
    (hc : ∀ row ∈ cf, m.ObliviousTrees.GetNumCatFeatures ≤ row.length) :
    m.Calc ff cf 0 m.GetTreeCount =
      ((List.range m.GetTreeCount).map fun tr => m.Calc ff cf tr (tr + 1)).foldl
        (List.zipWith (· + ·))
        (List.replicate (ff.length * m.dimNat) 0) := by
  rw [show ff.length = min ff.length cf.length by omega]
  exact calc_prefix_foldl m ff cf m.GetTreeCount

/-- Concrete well-formed two-tree store used by the evaluation witnesses:
two depth-1 trees over one float feature with border one half. -/
def wTrees : TObliviousTrees :=
  { ApproxDimension := 1
    TreeSplits := [0, 0]
    TreeSizes := [1, 1]
    TreeStartOffsets := [0, 1]
    LeafValues := [[1, 2], [3, 4]]
    FloatFeatures := [{ FeatureIndex := 0, Borders := [1/2] }] }

/-- Concrete model wrapping wTrees. -/
def wModel : TFullModel := { ObliviousTrees := wTrees }

/-- Witness for C2 at the concrete two-tree model and one concrete row. -/
theorem c2_calc_additive_witness :
    wModel.Calc [[1]] [[]] 0 wModel.GetTreeCount =
      ((List.range wModel.GetTreeCount).map fun tr => wModel.Calc [[1]] [[]] tr (tr + 1)).foldl
        (List.zipWith (· + ·))
        (List.replicate (([[(1 : ℚ)]] : List (List ℚ)).length * wModel.dimNat) 0) :=
  c2_calc_additive wModel [[1]] [[]] (by decide)
    (by intro row hr; simp at hr; simp [hr, wModel, wTrees, TObliviousTrees.GetNumFloatFeatures, sizeCast])
    (by intro row hr; simp at hr; simp [hr, wModel, wTrees, TObliviousTrees.GetNumCatFeatures])

/-- Modelled from the spec: the number of stages of staged evaluation, one
stage per incrementStep trees, the last stage covering the remainder. -/
def numStages (treeCount step : Nat) : Nat := (treeCount + step - 1) / step

/-- Modelled from the spec: the staged-evaluation accumulator: each stage
adds to the running result the contribution of the trees between the
previous stage end and the next one, and snapshots the running result. -/
def calcStagesAux (m : TFullModel) (ff : List (List ℚ)) (cf : List (List Int)) :
    List Nat → Nat → List ℚ → List (List ℚ)
  | [], _, _ => []
  | e :: rest, prev, acc =>
    let acc2 := List.zipWith (· + ·) acc (m.Calc ff cf prev e)
    acc2 :: calcStagesAux m ff cf rest e acc2

/-- Modelled from the spec: TFullModel::CalcTreeIntervals (model.h lines
395-398), whose body is not part of src/: evaluates cumulative tree ranges
advancing by incrementStep trees, one result vector per stage, incrementally
accumulating per-stage tree contributions. -/
def TFullModel.CalcTreeIntervals (m : TFullModel) (ff : List (List ℚ))
    (cf : List (List Int)) (incrementStep : Nat) : List (List ℚ) :=
  calcStagesAux m ff cf
    ((List.range (numStages m.GetTreeCount incrementStep)).map
      fun k => min ((k + 1) * incrementStep) m.GetTreeCount)
    0 (List.replicate ((min ff.length cf.length) * m.dimNat) 0)

/-- Helper: the staged accumulator produces exactly the prefix evaluations,
provided the running result entering each stage is the evaluation of the
prefix ending at the previous stage end. -/
theorem calcStagesAux_prefix (m : TFullModel) (ff : List (List ℚ))
    (cf : List (List Int)) (step N : Nat) :
    ∀ (n off : Nat) (acc : List ℚ), acc = m.Calc ff cf 0 (min (off * step) N) →
      ∀ j < n,
        (calcStagesAux m ff cf
          ((List.range n).map fun k => min ((off + k + 1) * step) N)
          (min (off * step) N) acc).getD j [] =
        m.Calc ff cf 0 (min ((off + j + 1) * step) N) := by
  intro n
  induction n with
  | zero => intro off acc hacc j hj; omega
  | succ n ih =>
    intro off acc hacc j hj
    have hends : ((List.range (n + 1)).map fun k => min ((off + k + 1) * step) N) =
        min ((off + 1) * step) N ::
          ((List.range n).map fun k => min ((off + 1 + k + 1) * step) N) := by
      rw [List.range_succ_eq_map, List.map_cons, List.map_map]
      refine congrArg₂ _ rfl ?_
      apply List.map_congr_left
      intro k _
      show min ((off + (k + 1) + 1) * step) N = min ((off + 1 + k + 1) * step) N
      congr 2
      omega
    rw [hends]
    have hle : off * step ≤ (off + 1) * step := Nat.mul_le_mul_right step (by omega)
    have hstage : List.zipWith (· + ·) acc
        (m.Calc ff cf (min (off * step) N) (min ((off + 1) * step) N)) =
        m.Calc ff cf 0 (min ((off + 1) * step) N) := by
      rw [hacc, ← calc_split m ff cf 0 (min (off * step) N) (min ((off + 1) * step) N)
        (by omega) (by omega)]
    cases j with
    | zero =>
      simp only [calcStagesAux, List.getD_cons_zero]
      exact hstage
    | succ j =>
      simp only [calcStagesAux, List.getD_cons_succ]
      rw [hstage, show off + (j + 1) + 1 = off + 1 + j + 1 by omega]
      exact ih (off + 1) _ rfl j (by omega)

/-- C3: staged evaluation is a prefix sum over cumulative tree ranges: for
every positive incrementStep and every stage k (stages numbered from 1), the
stage-k result equals the full evaluation over the range
[0, min(k * incrementStep, N)), not an independent window. -/
theorem c3_calcTreeIntervals_prefix (m : TFullModel) (ff : List (List ℚ))
    (cf : List (List Int)) (step k : Nat)
    (hstep : 0 < step)
    (hrows : ff.length = cf.length)
    (hf : ∀ row ∈ ff, m.ObliviousTrees.GetNumFloatFeatures ≤ row.length)
    (hc : ∀ row ∈ cf, m.ObliviousTrees.GetNumCatFeatures ≤ row.length)
    (hk1 : 1 ≤ k) (hk2 : k ≤ numStages m.GetTreeCount step) :
    (m.CalcTreeIntervals ff cf step).getD (k - 1) [] =
      m.Calc ff cf 0 (min (k * step) m.GetTreeCount) := by
  unfold TFullModel.CalcTreeIntervals
  have h0 : List.replicate (min ff.length cf.length * m.dimNat) (0 : ℚ) =
      m.Calc ff cf 0 (min (0 * step) m.GetTreeCount) := by
    rw [show min (0 * step) m.GetTreeCount = 0 by omega, calc_empty_range]
  have haux := calcStagesAux_prefix m ff cf step m.GetTreeCount
    (numStages m.GetTreeCount step) 0 _ h0 (k - 1) (by omega)
  have hm : ((List.range (numStages m.GetTreeCount step)).map
      fun j => min ((0 + j + 1) * step) m.GetTreeCount) =
      (List.range (numStages m.GetTreeCount step)).map
        fun j => min ((j + 1) * step) m.GetTreeCount := by
    apply List.map_congr_left
    intro j _
    congr 3
    omega
  rw [hm, show min (0 * step) m.GetTreeCount = 0 by omega,
    show 0 + (k - 1) + 1 = k by omega] at haux
  exact haux

/-- Witness for C3 at the concrete two-tree model, step 1, stage 1. -/
theorem c3_calcTreeIntervals_prefix_witness :
    (wModel.CalcTreeIntervals [[1]] [[]] 1).getD 0 [] =
      wModel.Calc [[1]] [[]] 0 (min (1 * 1) wModel.GetTreeCount) :=
  c3_calcTreeIntervals_prefix wModel [[1]] [[]] 1 1 (by decide) rfl
    (by intro row hr; simp at hr
        simp [hr, wModel, wTrees, TObliviousTrees.GetNumFloatFeatures, sizeCast])
    (by intro row hr; simp at hr
        simp [hr, wModel, wTrees, TObliviousTrees.GetNumCatFeatures])
    (by decide) (by decide)

/-- Canonical start offsets determined by the tree sizes: offset i is the sum
of the sizes of all trees before tree i. -/
def offsetsOf (sizes : List Int) : List Int :=
  (List.range sizes.length).map fun i => (sizes.take i).sum

/-- Well-formed tree store: the start offsets are the canonical offsets of
the sizes, the sizes are nonnegative, and the shared split sequence has
length equal to the sum of the sizes (the documented layout, model.h lines
35-39). -/
def treeStoreWF (t : TObliviousTrees) : Prop :=
  t.TreeStartOffsets = offsetsOf t.TreeSizes ∧
  (∀ s ∈ t.TreeSizes, 0 ≤ s) ∧
  (t.TreeSplits.length : Int) = t.TreeSizes.sum

/-- Modelled from the spec: TObliviousTrees::Truncate (declared at model.h
line 190, body not part of src/): keep only the trees of [begin, end) with
their leaf blocks, slice the shared split sequence starting at the offset of
tree begin, renumber the start offsets from zero, and invalidate the
metadata cache. -/
def TObliviousTrees.Truncate (t : TObliviousTrees) (b e : Nat) : TObliviousTrees :=
  { t with
    TreeSplits := (t.TreeSplits.drop (t.TreeStartOffsets.getD b 0).toNat).take
      ((((t.TreeSizes.drop b).take (e - b)).map Int.toNat).sum)
    TreeSizes := (t.TreeSizes.drop b).take (e - b)
    TreeStartOffsets := offsetsOf ((t.TreeSizes.drop b).take (e - b))
    LeafValues := (t.LeafValues.drop b).take (e - b)
    MetaData := none }

/-- Embedding of TFullModel::CopyTreeRange (model.h lines 475-479): copy the
whole model and truncate the copy's oblivious trees to [begin, end). -/
def TFullModel.CopyTreeRange (m : TFullModel) (b e : Nat) : TFullModel :=
  { m with ObliviousTrees := m.ObliviousTrees.Truncate b e }

/-- Helper: getD through a map by Int.toNat. -/
theorem getD_map_toNat (l : List Int) (j : Nat) :
    (l.getD j 0).toNat = (l.map Int.toNat).getD j 0 := by
  rw [List.getD_eq_getElem?_getD, List.getD_eq_getElem?_getD, List.getElem?_map]
  cases l[j]? <;> rfl

/-- Helper: the sum of a nonnegative integer list is the cast of the sum of
its Int.toNat image. -/
theorem sum_eq_cast_sum_toNat (l : List Int) (h : ∀ s ∈ l, 0 ≤ s) :
    l.sum = ((l.map Int.toNat).sum : Int) := by
  induction l with
  | nil => rfl
  | cons x xs ih =>
    simp only [List.sum_cons, List.map_cons]
    rw [ih fun s hs => h s (List.mem_cons_of_mem _ hs)]
    have hx : 0 ≤ x := h x (List.mem_cons_self _ _)
    push_cast
    omega

/-- Helper: toNat of the sum of a nonnegative integer list. -/
theorem sum_toNat_eq (l : List Int) (h : ∀ s ∈ l, 0 ≤ s) :
    l.sum.toNat = (l.map Int.toNat).sum := by
  rw [sum_eq_cast_sum_toNat l h]
  exact Int.toNat_natCast _

/-- Helper: entry j of the canonical offsets is the sum of the first j
sizes. -/
theorem offsetsOf_getD (sizes : List Int) (j : Nat) (hj : j < sizes.length) :
    (offsetsOf sizes).getD j 0 = (sizes.take j).sum := by
  unfold offsetsOf
  rw [List.getD_eq_getElem?_getD, List.getElem?_map, List.getElem?_range hj]
  rfl

/-- Helper: getD through a take of a drop reads the underlying list at the
shifted position, whenever the position is inside the taken prefix. -/
theorem getD_take_drop {α : Type _} (l : List α) (b n i : Nat) (d : α) (h : i < n) :
    ((l.drop b).take n).getD i d = l.getD (b + i) d := by
  rw [List.getD_eq_getElem?_getD, List.getD_eq_getElem?_getD,
    List.getElem?_take_of_lt h, List.getElem?_drop]

/-- Helper, at the level of plain natural-number size lists: slicing the
shared split sequence for the truncated store and then cutting out tree i of
the slice yields exactly tree b+i of the original sequence. -/
theorem slice_refs (splits : List Int) (ns : List Nat) (b e i : Nat)
    (hbe : b ≤ e) (hen : e ≤ ns.length) (hie : i < e - b) :
    ((((splits.drop ((ns.take b).sum)).take (((ns.drop b).take (e - b)).sum)).drop
        ((((ns.drop b).take (e - b)).take i).sum)).take
      (((ns.drop b).take (e - b)).getD i 0)) =
    (splits.drop ((ns.take (b + i)).sum)).take (ns.getD (b + i) 0) := by
  set ns2 := (ns.drop b).take (e - b) with hns2
  have hlen2 : ns2.length = e - b := by
    rw [hns2, List.length_take, List.length_drop]
    omega
  have htake : ns2.take i = (ns.drop b).take i := by
    rw [hns2, List.take_take, min_eq_left (by omega)]
  have hD : (ns.take b).sum + (ns2.take i).sum = (ns.take (b + i)).sum := by
    rw [htake, List.take_add, List.sum_append]
  have hgetD : ns2.getD i 0 = ns.getD (b + i) 0 := getD_take_drop ns b (e - b) i 0 hie
  have hbound : (ns2.take i).sum + ns2.getD i 0 ≤ ns2.sum := by
    have hi2 : i < ns2.length := by omega
    have hsucc : ns2.take (i + 1) = ns2.take i ++ [ns2.getD i 0] := by
      rw [List.take_succ, List.getD_eq_getElem?_getD, List.getElem?_eq_getElem hi2]
      rfl
    calc (ns2.take i).sum + ns2.getD i 0 = (ns2.take (i + 1)).sum := by
          rw [hsucc, List.sum_append]; simp
      _ ≤ (ns2.take (i + 1)).sum + (ns2.drop (i + 1)).sum := by omega
      _ = ns2.sum := by rw [← List.sum_append, List.take_append_drop]
  rw [List.drop_take, List.drop_drop, List.take_take,
    min_eq_left (by omega : ns2.getD i 0 ≤ ns2.sum - (ns2.take i).sum), hgetD, hD]

/-- Helper: tree i of the truncated store has exactly the split references
of tree b+i of a well-formed original store. -/
theorem truncate_treeSplitRefs (t : TObliviousTrees) (b e i : Nat)
    (hwf : treeStoreWF t) (hbe : b ≤ e) (hen : e ≤ t.TreeSizes.length)
    (hie : i < e - b) :
    (t.Truncate b e).treeSplitRefs i = t.treeSplitRefs (b + i) := by
  obtain ⟨hoff, hpos, -⟩ := hwf
  have hposT : ∀ s ∈ t.TreeSizes.take b, 0 ≤ s := fun s hs =>
    hpos s (List.mem_of_mem_take hs)
  have hposN : ∀ s ∈ ((t.TreeSizes.drop b).take (e - b)).take i, 0 ≤ s := fun s hs =>
    hpos s (List.mem_of_mem_drop (List.mem_of_mem_take (List.mem_of_mem_take hs)))
  have hposTbi : ∀ s ∈ t.TreeSizes.take (b + i), 0 ≤ s := fun s hs =>
    hpos s (List.mem_of_mem_take hs)
  have hlen2 : ((t.TreeSizes.drop b).take (e - b)).length = e - b := by
    rw [List.length_take, List.length_drop]
    omega
  unfold TObliviousTrees.treeSplitRefs TObliviousTrees.Truncate
  dsimp only
  rw [hoff, offsetsOf_getD t.TreeSizes b (by omega),
    offsetsOf_getD t.TreeSizes (b + i) (by omega),
    offsetsOf_getD ((t.TreeSizes.drop b).take (e - b)) i (by omega),
    sum_toNat_eq _ hposT, sum_toNat_eq _ hposN, sum_toNat_eq _ hposTbi,
    getD_map_toNat, getD_map_toNat]
  simp only [List.map_take, List.map_drop]
  exact slice_refs t.TreeSplits (t.TreeSizes.map Int.toNat) b e i hbe
    (by rw [List.length_map]; omega) hie

/-- Helper: leaf resolution in the truncated model for tree i equals leaf
resolution in the original model for tree b+i. -/
theorem copyTreeRange_leafIndex (m : TFullModel) (b e i : Nat)
    (f : List ℚ) (c : List Int)
    (hwf : treeStoreWF m.ObliviousTrees) (hbe : b ≤ e)
    (hen : e ≤ m.ObliviousTrees.TreeSizes.length) (hie : i < e - b) :
    (m.CopyTreeRange b e).leafIndex f c i = m.leafIndex f c (b + i) := by
  unfold TFullModel.leafIndex
  rw [show (m.CopyTreeRange b e).ObliviousTrees = m.ObliviousTrees.Truncate b e from rfl,
    truncate_treeSplitRefs m.ObliviousTrees b e i hwf hbe hen hie]
  rfl

/-- Helper: the truncated model's tree-i leaf value equals the original
model's tree-(b+i) leaf value, for every row and output dimension. -/
theorem copyTreeRange_treeLeafValue (m : TFullModel) (b e i d : Nat)
    (f : List ℚ) (c : List Int)
    (hwf : treeStoreWF m.ObliviousTrees) (hbe : b ≤ e)
    (hen : e ≤ m.ObliviousTrees.TreeSizes.length) (hie : i < e - b) :
    (m.CopyTreeRange b e).treeLeafValue f c i d = m.treeLeafValue f c (b + i) d := by
  unfold TFullModel.treeLeafValue
  rw [copyTreeRange_leafIndex m b e i f c hwf hbe hen hie,
    show (m.CopyTreeRange b e).ObliviousTrees.LeafValues =
      (m.ObliviousTrees.LeafValues.drop b).take (e - b) from rfl,
    List.getD_eq_getElem?_getD ((m.ObliviousTrees.LeafValues.drop b).take (e - b)),
    List.getElem?_take_of_lt hie, List.getElem?_drop,
    ← List.getD_eq_getElem?_getD]
  rfl

/-- Helper: the truncated model's full-range per-row evaluation equals the
original model's per-row evaluation over [b, e). -/
theorem copyTreeRange_calcRow (m : TFullModel) (b e : Nat)
    (f : List ℚ) (c : List Int)
    (hwf : treeStoreWF m.ObliviousTrees) (hbe : b ≤ e)
    (hen : e ≤ m.ObliviousTrees.TreeSizes.length) :
    (m.CopyTreeRange b e).calcRow f c 0 (e - b) = m.calcRow f c b e := by
  unfold TFullModel.calcRow
  rw [show (m.CopyTreeRange b e).dimNat = m.dimNat from rfl]
  apply List.map_congr_left
  intro d _
  rw [Nat.sub_zero, List.range'_eq_map_range 0 (e - b), List.range'_eq_map_range b (e - b),
    List.map_map, List.map_map]
  apply congrArg List.sum
  apply List.map_congr_left
  intro x hx
  have hx2 : x < e - b := List.mem_range.mp hx
  show (m.CopyTreeRange b e).treeLeafValue f c (0 + x) d = m.treeLeafValue f c (b + x) d
  rw [show 0 + x = x by omega]
  exact copyTreeRange_treeLeafValue m b e x d f c hwf hbe hen hx2

/-- C5: truncation to the tree range [b, e) keeps exactly e - b trees, and
the truncated model's full-range evaluation coincides with the original
model's evaluation over [b, e) on every input, for every well-formed
store. -/
theorem c5_copyTreeRange_truncation (m : TFullModel) (b e : Nat)
    (ff : List (List ℚ)) (cf : List (List Int))
    (hwf : treeStoreWF m.ObliviousTrees) (hbe : b ≤ e) (hen : e ≤ m.GetTreeCount) :
    (m.CopyTreeRange b e).GetTreeCount = e - b ∧
    (m.CopyTreeRange b e).Calc ff cf 0 ((m.CopyTreeRange b e).GetTreeCount) =
      m.Calc ff cf b e := by
  have hen2 : e ≤ m.ObliviousTrees.TreeSizes.length := hen
  have hcount : (m.CopyTreeRange b e).GetTreeCount = e - b := by
    show ((m.ObliviousTrees.TreeSizes.drop b).take (e - b)).length = e - b
    rw [List.length_take, List.length_drop]
    omega
  refine ⟨hcount, ?_⟩
  rw [hcount]
  unfold TFullModel.Calc
  have hfun : (fun rc : List ℚ × List Int =>
      (m.CopyTreeRange b e).calcRow rc.1 rc.2 0 (e - b)) =
      fun rc : List ℚ × List Int => m.calcRow rc.1 rc.2 b e := by
    funext rc
    exact copyTreeRange_calcRow m b e rc.1 rc.2 hwf hbe hen2
  rw [hfun]

/-- Witness for C5 at the concrete two-tree model, truncated to tree 1. -/
theorem c5_copyTreeRange_truncation_witness :
    (wModel.CopyTreeRange 1 2).GetTreeCount = 2 - 1 ∧
    (wModel.CopyTreeRange 1 2).Calc [[1]] [[]] 0 ((wModel.CopyTreeRange 1 2).GetTreeCount) =
      wModel.Calc [[1]] [[]] 1 2 :=
  c5_copyTreeRange_truncation wModel 1 2 [[1]] [[]]
    ⟨by decide, by decide, by decide⟩ (by decide) (by decide)

/-- Modelled from the spec: the token alphabet of the serialized model
stream.  The real binary container (a caching flatbuffers serializer) is
consumed as an opaque serialize/deserialize boundary; it is modelled as a
flat token stream with length-prefixed sections, which destroys all list
structure on the way out and reparses it on the way in. -/
inductive Token where
  | tInt (i : Int)
  | tRat (q : ℚ)
  | tStr (s : String)
deriving DecidableEq

/-- Encoding of one integer. -/
def encTokInt (i : Int) : List Token := [Token.tInt i]

/-- Encoding of one rational (a C++ double). -/
def encTokRat (q : ℚ) : List Token := [Token.tRat q]

/-- Length-prefixed encoding of a list of items. -/
def encListOf {α : Type} (enc : α → List Token) (l : List α) : List Token :=
  Token.tInt (l.length : Int) :: l.flatMap enc

/-- Encoding of a categorical feature descriptor. -/
def encCatFeature (f : TCatFeature) : List Token := [Token.tInt f.FeatureIndex]

/-- Encoding of a float feature descriptor. -/
def encFloatFeature (f : TFloatFeature) : List Token :=
  Token.tInt f.FeatureIndex :: encListOf encTokRat f.Borders

/-- Encoding of a one-hot feature descriptor. -/
def encOneHotFeature (f : TOneHotFeature) : List Token :=
  Token.tInt f.CatFeatureIndex :: encListOf encTokInt f.Values

/-- Encoding of a ctr descriptor. -/
def encCtr (c : TModelCtr) : List Token :=
  [Token.tInt c.Base, Token.tInt c.CtrType, Token.tInt c.PriorNum]

/-- Encoding of a ctr feature descriptor. -/
def encCtrFeature (f : TCtrFeature) : List Token :=
  encCtr f.Ctr ++ encListOf encTokRat f.Borders

/-- Encoding of one model-information key-value pair. -/
def encInfoPair (kv : String × String) : List Token := [Token.tStr kv.1, Token.tStr kv.2]

/-- Modelled from the spec: SerializeModel (model.h line 517) / TFullModel::
Save (line 319): the tree store, the feature descriptors and the model
information map flattened into the stream; the derived metadata cache is not
written (it is rebuilt on load) and the provider state is not modelled. -/
def SerializeModel (m : TFullModel) : List Token :=
  Token.tInt m.ObliviousTrees.ApproxDimension ::
    (encListOf encTokInt m.ObliviousTrees.TreeSplits ++
      (encListOf encTokInt m.ObliviousTrees.TreeSizes ++
        (encListOf encTokInt m.ObliviousTrees.TreeStartOffsets ++
          (encListOf (encListOf encTokRat) m.ObliviousTrees.LeafValues ++
            (encListOf encCatFeature m.ObliviousTrees.CatFeatures ++
              (encListOf encFloatFeature m.ObliviousTrees.FloatFeatures ++
                (encListOf encOneHotFeature m.ObliviousTrees.OneHotFeatures ++
                  (encListOf encCtrFeature m.ObliviousTrees.CtrFeatures ++
                    encListOf encInfoPair m.ModelInfo))))))))

/-- Decoder for one integer token. -/
def decInt : List Token → Option (Int × List Token)
  | Token.tInt i :: rest => some (i, rest)
  | _ => none

/-- Decoder for one rational token. -/
def decRat : List Token → Option (ℚ × List Token)
  | Token.tRat q :: rest => some (q, rest)
  | _ => none

/-- Decoder for one string token. -/
def decStr : List Token → Option (String × List Token)
  | Token.tStr s :: rest => some (s, rest)
  | _ => none

/-- Decoder for a length prefix. -/
def decCount : List Token → Option (Nat × List Token)
  | Token.tInt i :: rest => some (i.toNat, rest)
  | _ => none

/-- Decoder for a fixed number of consecutive items. -/
def decListWith {α : Type} (dec : List Token → Option (α × List Token)) :
    Nat → List Token → Option (List α × List Token)
  | 0, ts => some ([], ts)
  | n + 1, ts =>
    match dec ts with
    | none => none
    | some (x, ts1) =>
      match decListWith dec n ts1 with
      | none => none
      | some (xs, ts2) => some (x :: xs, ts2)

/-- Decoder for a length-prefixed list of items. -/
def decListOf {α : Type} (dec : List Token → Option (α × List Token))
    (ts : List Token) : Option (List α × List Token) :=
  match decCount ts with
  | none => none
  | some (n, ts1) => decListWith dec n ts1

/-- Decoder for a categorical feature descriptor. -/
def decCatFeature (ts : List Token) : Option (TCatFeature × List Token) :=
  match decInt ts with
  | none => none
  | some (i, ts1) => some ({ FeatureIndex := i }, ts1)

/-- Decoder for a float feature descriptor. -/
def decFloatFeature (ts : List Token) : Option (TFloatFeature × List Token) :=
  match decInt ts with
  | none => none
  | some (i, ts1) =>
    match decListOf decRat ts1 with
    | none => none
    | some (bs, ts2) => some ({ FeatureIndex := i, Borders := bs }, ts2)

/-- Decoder for a one-hot feature descriptor. -/
def decOneHotFeature (ts : List Token) : Option (TOneHotFeature × List Token) :=
  match decInt ts with
  | none => none
  | some (i, ts1) =>
    match decListOf decInt ts1 with
    | none => none
    | some (vs, ts2) => some ({ CatFeatureIndex := i, Values := vs }, ts2)

/-- Decoder for a ctr descriptor. -/
def decCtr (ts : List Token) : Option (TModelCtr × List Token) :=
  match decInt ts with
  | none => none
  | some (b, ts1) =>
    match decInt ts1 with
    | none => none
    | some (ty, ts2) =>
      match decInt ts2 with
      | none => none
      | some (p, ts3) => some ({ Base := b, CtrType := ty, PriorNum := p }, ts3)

/-- Decoder for a ctr feature descriptor. -/
def decCtrFeature (ts : List Token) : Option (TCtrFeature × List Token) :=
  match decCtr ts with
  | none => none
  | some (c, ts1) =>
    match decListOf decRat ts1 with
    | none => none
    | some (bs, ts2) => some ({ Ctr := c, Borders := bs }, ts2)

/-- Decoder for one model-information key-value pair. -/
def decInfoPair (ts : List Token) : Option ((String × String) × List Token) :=
  match decStr ts with
  | none => none
  | some (k, ts1) =>
    match decStr ts1 with
    | none => none
    | some (v, ts2) => some ((k, v), ts2)

/-- Modelled from the spec: DeserializeModel (model.h line 523) / TFullModel::
Load (line 324): parse back every section in order and rebuild the model; the
metadata cache is left to be rebuilt by UpdateDynamicData and no provider is
attached by the parse itself. -/
def DeserializeModel (ts : List Token) : Option TFullModel :=
  match decInt ts with
  | none => none
  | some (dim, ts1) =>
  match decListOf decInt ts1 with
  | none => none
  | some (splits, ts2) =>
  match decListOf decInt ts2 with
  | none => none
  | some (sizes, ts3) =>
  match decListOf decInt ts3 with
  | none => none
  | some (offs, ts4) =>
  match decListOf (decListOf decRat) ts4 with
  | none => none
  | some (leaves, ts5) =>
  match decListOf decCatFeature ts5 with
  | none => none
  | some (cats, ts6) =>
  match decListOf decFloatFeature ts6 with
  | none => none
  | some (floats, ts7) =>
  match decListOf decOneHotFeature ts7 with
  | none => none
  | some (ones, ts8) =>
  match decListOf decCtrFeature ts8 with
  | none => none
  | some (ctrs, ts9) =>
  match decListOf decInfoPair ts9 with
  | none => none
  | some (info, _) =>
    some
      { ObliviousTrees :=
          { ApproxDimension := dim
            TreeSplits := splits
            TreeSizes := sizes
            TreeStartOffsets := offs
            LeafValues := leaves
            CatFeatures := cats
            FloatFeatures := floats
            OneHotFeatures := ones
            CtrFeatures := ctrs
            MetaData := none }
        ModelInfo := info
        CtrProvider := none }

/-- Helper: a run of items decodes back to the encoded list whenever each
item's decoder inverts its encoder with arbitrary continuation. -/
theorem decListWith_enc {α : Type} (dec : List Token → Option (α × List Token))
    (enc : α → List Token)
    (h : ∀ (x : α) (rest : List Token), dec (enc x ++ rest) = some (x, rest)) :
    ∀ (l : List α) (rest : List Token),
      decListWith dec l.length (l.flatMap enc ++ rest) = some (l, rest) := by
  intro l
  induction l with
  | nil => intro rest; rfl
  | cons x xs ih =>
    intro rest
    simp only [List.flatMap_cons, List.length_cons, List.append_assoc, decListWith,
      h x (xs.flatMap enc ++ rest), ih rest]

/-- Helper: a length-prefixed list decodes back to the encoded list. -/
theorem decListOf_encListOf {α : Type} (dec : List Token → Option (α × List Token))
    (enc : α → List Token)
    (h : ∀ (x : α) (rest : List Token), dec (enc x ++ rest) = some (x, rest))
    (l : List α) (rest : List Token) :
    decListOf dec (encListOf enc l ++ rest) = some (l, rest) := by
  unfold encListOf decListOf
  simp only [List.cons_append, decCount, Int.toNat_natCast]
  exact decListWith_enc dec enc h l rest

/-- Round trip of an integer list section. -/
theorem decListOf_int (l : List Int) (rest : List Token) :
    decListOf decInt (encListOf encTokInt l ++ rest) = some (l, rest) :=
  decListOf_encListOf decInt encTokInt (fun x r => rfl) l rest

/-- Round trip of a rational list section. -/
theorem decListOf_rat (l : List ℚ) (rest : List Token) :
    decListOf decRat (encListOf encTokRat l ++ rest) = some (l, rest) :=
  decListOf_encListOf decRat encTokRat (fun x r => rfl) l rest

/-- Round trip of a list-of-rational-lists section (the leaf blocks). -/
theorem decListOf_ratList (l : List (List ℚ)) (rest : List Token) :
    decListOf (decListOf decRat) (encListOf (encListOf encTokRat) l ++ rest) =
      some (l, rest) :=
  decListOf_encListOf (decListOf decRat) (encListOf encTokRat) decListOf_rat l rest

/-- Round trip of one categorical feature descriptor. -/
theorem decCatFeature_enc (f : TCatFeature) (rest : List Token) :
    decCatFeature (encCatFeature f ++ rest) = some (f, rest) := rfl

/-- Round trip of one float feature descriptor. -/
theorem decFloatFeature_enc (f : TFloatFeature) (rest : List Token) :
    decFloatFeature (encFloatFeature f ++ rest) = some (f, rest) := by
  unfold encFloatFeature decFloatFeature
  simp only [List.cons_append, decInt, decListOf_rat f.Borders rest]

/-- Round trip of one one-hot feature descriptor. -/
theorem decOneHotFeature_enc (f : TOneHotFeature) (rest : List Token) :
    decOneHotFeature (encOneHotFeature f ++ rest) = some (f, rest) := by
  unfold encOneHotFeature decOneHotFeature
  simp only [List.cons_append, decInt, decListOf_int f.Values rest]

/-- Round trip of one ctr feature descriptor. -/
theorem decCtrFeature_enc (f : TCtrFeature) (rest : List Token) :
    decCtrFeature (encCtrFeature f ++ rest) = some (f, rest) := by
  unfold encCtrFeature encCtr decCtrFeature decCtr
  simp only [List.cons_append, List.append_assoc, decInt, List.nil_append,
    decListOf_rat f.Borders rest]

/-- Round trip of one model-information pair. -/
theorem decInfoPair_enc (kv : String × String) (rest : List Token) :
    decInfoPair (encInfoPair kv ++ rest) = some (kv, rest) := rfl

/-- Round trip of the feature descriptor and information sections. -/
theorem decListOf_cat (l : List TCatFeature) (rest : List Token) :
    decListOf decCatFeature (encListOf encCatFeature l ++ rest) = some (l, rest) :=
  decListOf_encListOf decCatFeature encCatFeature decCatFeature_enc l rest

/-- Round trip of the float descriptor section. -/
theorem decListOf_float (l : List TFloatFeature) (rest : List Token) :
    decListOf decFloatFeature (encListOf encFloatFeature l ++ rest) = some (l, rest) :=
  decListOf_encListOf decFloatFeature encFloatFeature decFloatFeature_enc l rest

/-- Round trip of the one-hot descriptor section. -/
theorem decListOf_oneHot (l : List TOneHotFeature) (rest : List Token) :
    decListOf decOneHotFeature (encListOf encOneHotFeature l ++ rest) = some (l, rest) :=
  decListOf_encListOf decOneHotFeature encOneHotFeature decOneHotFeature_enc l rest

/-- Round trip of the ctr descriptor section. -/
theorem decListOf_ctrFeat (l : List TCtrFeature) (rest : List Token) :
    decListOf decCtrFeature (encListOf encCtrFeature l ++ rest) = some (l, rest) :=
  decListOf_encListOf decCtrFeature encCtrFeature decCtrFeature_enc l rest

/-- Round trip of the model-information section at the end of the stream. -/
theorem decListOf_info_nil (l : List (String × String)) :
    decListOf decInfoPair (encListOf encInfoPair l) = some (l, []) := by
  rw [← List.append_nil (encListOf encInfoPair l)]
  exact decListOf_encListOf decInfoPair encInfoPair decInfoPair_enc l []

/-- Helper: deserializing a serialized model succeeds and rebuilds exactly
the structural fields, with a cleared metadata cache and no provider. -/
theorem deserialize_serialize (m : TFullModel) :
    DeserializeModel (SerializeModel m) =
      some
        { ObliviousTrees := { m.ObliviousTrees with MetaData := none }
          ModelInfo := m.ModelInfo
          CtrProvider := none } := by
  unfold SerializeModel DeserializeModel
  simp only [decInt, decListOf_int, decListOf_ratList, decListOf_cat, decListOf_float,
    decListOf_oneHot, decListOf_ctrFeat, decListOf_info_nil]

/-- C4: the serialize/deserialize round trip succeeds for every model
(including zero-tree models, single depth-0 trees and ensembles mixing
float, one-hot and ctr splits) and yields a model structurally equal to the
original under the model equality operator (tree store, feature descriptors
and information map; the excluded metadata cache and provider are not part
of value identity). -/
theorem c4_load_save_roundtrip (m : TFullModel) :
    ∃ m2 : TFullModel, DeserializeModel (SerializeModel m) = some m2 ∧
      m2.equalsOp m = true ∧ m.equalsOp m2 = true := by
  refine ⟨_, deserialize_serialize m, ?_, ?_⟩ <;>
    simp [TFullModel.equalsOp, TObliviousTrees.equalsOp]
